import Mathlib

/-!
Verification of the SnapCrab screenshot annotation tool (src/main.rs).

The geometry of the program (egui `Pos2`, `Vec2`, `Rect`, all `f32`) is
embedded over the exact rationals `ℚ`.  Comparisons of the form
`dist < t`, where `dist` is a Euclidean distance (a square root), are
embedded by their exact algebraic equivalents over nonnegative radicands:
`Real.sqrt d < t ↔ 0 < t ∧ d < t * t` and `1 < Real.sqrt d ↔ 1 < d`;
bridge lemmas `distLt_iff_sqrt` and `distGtOne_iff_sqrt` below justify
these encodings against `Real.sqrt`.
-/

/-- Embedding of egui `Pos2` (a point) over `ℚ`. -/
structure Pos2 where
  x : ℚ
  y : ℚ
deriving DecidableEq, Repr

/-- Embedding of egui `Vec2` (a displacement) over `ℚ`. -/
structure Vec2 where
  x : ℚ
  y : ℚ
deriving DecidableEq, Repr

/-- `Pos2 - Pos2 → Vec2` (egui `impl Sub for Pos2`). -/
def Pos2.sub (a b : Pos2) : Vec2 := ⟨a.x - b.x, a.y - b.y⟩

/-- `Pos2 + Vec2 → Pos2` (egui `impl Add<Vec2> for Pos2`). -/
def Pos2.addv (a : Pos2) (v : Vec2) : Pos2 := ⟨a.x + v.x, a.y + v.y⟩

/-- Unary negation of a `Vec2`. -/
def Vec2.neg (v : Vec2) : Vec2 := ⟨-v.x, -v.y⟩

/-- Dot product (egui `Vec2::dot`). -/
def Vec2.dot (a b : Vec2) : ℚ := a.x * b.x + a.y * b.y

/-- Squared length (egui `Vec2::length_sq`). -/
def Vec2.length_sq (v : Vec2) : ℚ := v.x * v.x + v.y * v.y

/-- Scalar multiple `Vec2 * f32` (egui `impl Mul<f32> for Vec2`). -/
def Vec2.smul (v : Vec2) (t : ℚ) : Vec2 := ⟨v.x * t, v.y * t⟩

/-- Componentwise division `Vec2 / Vec2` (egui `impl Div<Vec2> for Vec2`). -/
def Vec2.divv (a b : Vec2) : Vec2 := ⟨a.x / b.x, a.y / b.y⟩

/-- Componentwise product `Vec2 * Vec2` (egui `impl Mul<Vec2> for Vec2`). -/
def Vec2.mulv (a b : Vec2) : Vec2 := ⟨a.x * b.x, a.y * b.y⟩

/-- Scalar division `Vec2 / f32` (egui `impl Div<f32> for Vec2`). -/
def Vec2.sdiv (v : Vec2) (t : ℚ) : Vec2 := ⟨v.x / t, v.y / t⟩

/-- Squared Euclidean distance between two points; `Pos2::distance` in the
source is the square root of this quantity. -/
def Pos2.distSq (a b : Pos2) : ℚ := (a.sub b).length_sq

/-- Exact embedding of the comparison `sqrt dsq < t` (used by
`Annotation::hit_test`, which compares `p.distance(q) < threshold`):
over nonnegative `dsq` it is equivalent to `0 < t ∧ dsq < t * t`. -/
def distLt (dsq t : ℚ) : Prop := 0 < t ∧ dsq < t * t

instance (dsq t : ℚ) : Decidable (distLt dsq t) := by
  unfold distLt; infer_instance

/-- Exact embedding of the comparison `sqrt dsq > 1.0` (used by the
drag-release commit check `start.distance(end) > 1.0`). -/
def distGtOne (dsq : ℚ) : Prop := 1 < dsq

instance (dsq : ℚ) : Decidable (distGtOne dsq) := by
  unfold distGtOne; infer_instance

/-- The encoding `distLt` agrees with the real comparison `sqrt dsq < t`. -/
theorem distLt_iff_sqrt (dsq t : ℚ) :
    distLt dsq t ↔ Real.sqrt dsq < t := by
  unfold distLt
  rcases le_or_lt t 0 with ht | ht
  · constructor
    · rintro ⟨ht2, _⟩
      exact absurd ht2 (not_lt.mpr ht)
    · intro hlt
      have h0 : (0:ℝ) ≤ Real.sqrt dsq := Real.sqrt_nonneg _
      have : (t:ℝ) ≤ 0 := by exact_mod_cast ht
      linarith
  · rw [Real.sqrt_lt' (by exact_mod_cast ht)]
    constructor
    · rintro ⟨_, hlt⟩
      have : ((dsq:ℝ)) < (t:ℝ) * t := by exact_mod_cast hlt
      nlinarith
    · intro hlt
      refine ⟨ht, ?_⟩
      have : ((dsq:ℝ)) < (t:ℝ) ^ 2 := hlt
      have h2 : ((dsq:ℝ)) < (t:ℝ) * t := by nlinarith
      exact_mod_cast h2

/-- The encoding `distGtOne` agrees with the real comparison `1 < sqrt dsq`. -/
theorem distGtOne_iff_sqrt (dsq : ℚ) :
    distGtOne dsq ↔ 1 < Real.sqrt dsq := by
  unfold distGtOne
  rw [show (1:ℝ) = Real.sqrt 1 by simp]
  constructor
  · intro h
    apply Real.sqrt_lt_sqrt (by norm_num)
    exact_mod_cast h
  · intro h
    by_contra hc
    push_neg at hc
    have hle : Real.sqrt dsq ≤ Real.sqrt 1 := by
      apply Real.sqrt_le_sqrt
      exact_mod_cast hc
    linarith

/-- Embedding of egui `Rect`, stored as min and max corner. -/
structure Rect where
  min : Pos2
  max : Pos2
deriving DecidableEq, Repr

/-- egui `Rect::contains`:
`min.x <= p.x && p.x <= max.x && min.y <= p.y && p.y <= max.y`. -/
def Rect.contains (r : Rect) (p : Pos2) : Bool :=
  decide (r.min.x ≤ p.x) && decide (p.x ≤ r.max.x) &&
    decide (r.min.y ≤ p.y) && decide (p.y ≤ r.max.y)

/-- egui `Rect::expand`: move both corners outward by `t`. -/
def Rect.expand (r : Rect) (t : ℚ) : Rect :=
  ⟨⟨r.min.x - t, r.min.y - t⟩, ⟨r.max.x + t, r.max.y + t⟩⟩

/-- egui `Rect::shrink`: `expand(-t)`. -/
def Rect.shrink (r : Rect) (t : ℚ) : Rect := r.expand (-t)

/-- egui `Rect::from_two_pos`: componentwise min and max of the corners. -/
def Rect.from_two_pos (a b : Pos2) : Rect :=
  ⟨⟨Min.min a.x b.x, Min.min a.y b.y⟩, ⟨Max.max a.x b.x, Max.max a.y b.y⟩⟩

/-- egui `Rect::from_min_size`. -/
def Rect.from_min_size (p : Pos2) (s : Vec2) : Rect := ⟨p, p.addv s⟩

/-- egui `Rect::width`. -/
def Rect.width (r : Rect) : ℚ := r.max.x - r.min.x

/-- egui `Rect::height`. -/
def Rect.height (r : Rect) : ℚ := r.max.y - r.min.y

/-- egui `Rect::size`. -/
def Rect.size (r : Rect) : Vec2 := ⟨r.width, r.height⟩

/-- egui `Rect::translate`. -/
def Rect.translate (r : Rect) (d : Vec2) : Rect := ⟨r.min.addv d, r.max.addv d⟩

/-- `f32::clamp(lo, hi)`. -/
def clampQ (x lo hi : ℚ) : ℚ := min (max x lo) hi

/-- Embedding of egui `Color32`; its internal structure is irrelevant to
every claim, only equality matters. -/
abbrev Color32 := ℕ

/-- The `Tool` enum of the source. -/
inductive Tool where
  | arrow
  | rect
  | text
  | crop
deriving DecidableEq, Repr

/-- The `AppState` enum of the source. -/
inductive AppState where
  | Normal
  | PickingWindow
  | PickingArea
deriving DecidableEq, Repr

/-- The `Annotation` enum of the source (variants `Arrow`, `Rect`, `Text`). -/
inductive Ann where
  | arrow (start endp : Pos2) (color : Color32) (thickness : ℚ)
  | rect (rect : Rect) (color : Color32) (thickness : ℚ)
  | text (pos : Pos2) (text : String) (color : Color32) (size : ℚ)
deriving DecidableEq, Repr

/-- `Annotation::hit_test` from the source, with distance comparisons
embedded through `distLt`:
arrow: clamped projection onto the segment, falling back to distance from
`start` when `length_sq < 1.0`; rect: inside the expanded rect and
(outside the shrunk rect or inside the original); text: containment in the
expanded approximate bounding box `len(text) * size * 0.6` by `size`. -/
def Ann.hit_test (a : Ann) (p : Pos2) (threshold : ℚ) : Bool :=
  match a with
  | .arrow start endp _ _ =>
    let line_vec := endp.sub start
    let len_sq := line_vec.length_sq
    if len_sq < 1 then
      decide (distLt (p.distSq start) threshold)
    else
      let t := clampQ (((p.sub start).dot line_vec) / len_sq) 0 1
      let projection := start.addv (line_vec.smul t)
      decide (distLt (p.distSq projection) threshold)
  | .rect r _ _ =>
    (r.expand threshold).contains p &&
      (!((r.shrink threshold).contains p) || r.contains p)
  | .text tpos tstr _ tsize =>
    let r := Rect.from_min_size tpos ⟨(tstr.length : ℚ) * tsize * (6/10), tsize⟩
    (r.expand threshold).contains p

/-- `Annotation::translate` from the source: add `delta` to every
geometric field of the variant. -/
def Ann.translate (a : Ann) (delta : Vec2) : Ann :=
  match a with
  | .arrow start endp c th => .arrow (start.addv delta) (endp.addv delta) c th
  | .rect r c th => .rect (r.translate delta) c th
  | .text pos t c s => .text (pos.addv delta) t c s

/-- Dimensions of a captured RGBA image (the geometric content of
`image::RgbaImage` that the claims depend on). -/
structure ImgDims where
  width : ℕ
  height : ℕ
deriving DecidableEq, Repr

/-- `SnapCrabApp::ui_to_image` from the source: normalize against the
display rect and scale by the native image size; identity when no image
is loaded. -/
def ui_to_image (original : Option ImgDims) (ui_pos : Pos2) (image_rect : Rect) : Pos2 :=
  match original with
  | some o =>
    let normalized := (ui_pos.sub image_rect.min).divv image_rect.size
    ⟨normalized.x * (o.width : ℚ), normalized.y * (o.height : ℚ)⟩
  | none => ui_pos

/-- `SnapCrabApp::image_to_ui` from the source: normalize by the native
image size and scale into the display rect; identity when no image is
loaded. -/
def image_to_ui (original : Option ImgDims) (img_pos : Pos2) (image_rect : Rect) : Pos2 :=
  match original with
  | some o =>
    let normalized : Vec2 := ⟨img_pos.x / (o.width : ℚ), img_pos.y / (o.height : ℚ)⟩
    image_rect.min.addv (normalized.mulv image_rect.size)
  | none => img_pos

theorem Pos2.ext2 (a b : Pos2) (hx : a.x = b.x) (hy : a.y = b.y) : a = b := by
  cases a; cases b; cases hx; cases hy; rfl

/-- `WindowInfo` fields of an OS window as read by `enter_pick_mode`:
each fallible getter is taken after its `unwrap_or` default has been
applied (`title().unwrap_or_default()`, `width().unwrap_or(0)`, ...). -/
structure WinProps where
  title : String
  app_name : String
  minimized : Bool
  x : Int
  y : Int
  width : ℕ
  height : ℕ
deriving DecidableEq, Repr

/-- The `WindowInfo` struct of the source. -/
structure WindowInfo where
  rect : Rect
  title : String
  app_name : String
deriving DecidableEq, Repr

/-- The application state of `SnapCrabApp` that the claims depend on
(texture handles and purely visual fields are omitted). -/
structure AppModel where
  original_image : Option ImgDims
  anns : List Ann
  current_tool : Tool
  current_color : Color32
  stroke_thickness : ℚ
  text_size : ℚ
  drag_start : Option Pos2
  active_ann_index : Option ℕ
  temp_text : String
  editing_text_pos : Option Pos2
  state : AppState
  fullscreen_bg_image : Option ImgDims
  windows : List WindowInfo
deriving DecidableEq, Repr

/-- Rust saturating cast `f32 as u32` for finite values: negative inputs
clamp to 0, otherwise truncation toward zero. -/
def rustAsU32 (q : ℚ) : ℕ := if q ≤ 0 then 0 else (⌊q⌋).toNat

/-- Clipping performed by `image::imageops::crop_imm` on the requested
crop rectangle: the origin is clamped into the image and the size is
clamped to what remains. The claims depend only on the dimensions of the
cropped image, which this computes. -/
def cropDims (bg : ImgDims) (x y w h : ℕ) : ImgDims :=
  let xc := Min.min x bg.width
  let yc := Min.min y bg.height
  ⟨Min.min w (bg.width - xc), Min.min h (bg.height - yc)⟩

/-- `SnapCrabApp::load_captured_image`: install the new image and clear
the list of drawn shapes (the texture upload is omitted). Note it does
not touch `active_ann_index`. -/
def load_captured_image (s : AppModel) (img : ImgDims) : AppModel :=
  { s with original_image := some img, anns := [] }

/-- The hit-test scan of `update` on drag start:
`annotations.iter().enumerate().rev().find(|(_, ann)| ann.hit_test(...))`,
keeping the index of the first match of the reversed scan. -/
def select_hit (anns : List Ann) (p : Pos2) (threshold : ℚ) : Option ℕ :=
  (anns.enum.reverse.find? (fun ia => ia.2.hit_test p threshold)).map (fun ia => ia.1)

/-- The `response.drag_started()` branch of `update` (canvas mode): map
the pointer into image space, select the topmost hit shape unless the
tool is Crop, and otherwise begin a new-shape drag (for the Text tool
additionally opening the inline text prompt). -/
def on_drag_started (s : AppModel) (interact_pos : Option Pos2) (rect : Rect)
    (scale : ℚ) : AppModel :=
  match interact_pos with
  | some pos_ui =>
    let pos_img := ui_to_image s.original_image pos_ui rect
    let s1 :=
      if s.current_tool ≠ Tool.crop then
        { s with active_ann_index := select_hit s.anns pos_img (10 / scale) }
      else s
    if s1.active_ann_index = none then
      let s2 := { s1 with drag_start := some pos_ui }
      if s2.current_tool = Tool.text then
        { s2 with editing_text_pos := some pos_ui, temp_text := "" }
      else s2
    else s1
  | none => s

/-- The `response.dragged()` branch of `update` (canvas mode): translate
the selected shape by the drag delta divided by the display scale, using
the bounds-checked `annotations.get_mut(idx)`. -/
def on_dragged (s : AppModel) (drag_delta : Vec2) (scale : ℚ) : AppModel :=
  match s.active_ann_index with
  | some idx =>
    let delta_img := drag_delta.sdiv scale
    match s.anns.get? idx with
    | some ann => { s with anns := s.anns.set idx (ann.translate delta_img) }
    | none => s
  | none => s

/-- The `response.drag_stopped()` branch of `update` (canvas mode): when a
new-shape drag was in progress and the image-space distance between start
and end exceeds 1.0, commit an Arrow or Rect (or crop the image for the
Crop tool); always clear `drag_start`. -/
def on_drag_stopped (s : AppModel) (interact_pos : Option Pos2) (rect : Rect) : AppModel :=
  let s1 :=
    match s.drag_start, interact_pos with
    | some start_ui, some end_ui =>
      let start := ui_to_image s.original_image start_ui rect
      let endp := ui_to_image s.original_image end_ui rect
      if distGtOne (start.distSq endp) then
        match s.current_tool with
        | .arrow =>
          { s with anns :=
              s.anns ++ [Ann.arrow start endp s.current_color s.stroke_thickness] }
        | .rect =>
          { s with anns :=
              s.anns ++ [Ann.rect (Rect.from_two_pos start endp)
                s.current_color s.stroke_thickness] }
        | .crop =>
          let s2 :=
            match s.original_image with
            | some bg =>
              let crop := Rect.from_two_pos start endp
              load_captured_image s
                (cropDims bg (rustAsU32 crop.min.x) (rustAsU32 crop.min.y)
                  (rustAsU32 crop.width) (rustAsU32 crop.height))
            | none => s
          { s2 with current_tool := Tool.arrow }
        | .text => s
      else s
    | _, _ => s
  { s1 with drag_start := none }

/-- Rust `str::starts_with("ms-")`, embedded over the character list of
the string (the system-title prefix test of the window filter). -/
def startsWithMs (t : String) : Bool := List.isPrefixOf "ms-".data t.data

/-- The window-exclusion filter of `enter_pick_mode`. -/
def is_valid_window (w : WinProps) : Bool :=
  !w.minimized && !(w.title == "") && !(w.title == "SnapCrab") &&
    !(w.app_name == "SnapCrab") && !(w.title == "Program Manager") &&
    !(startsWithMs w.title) && decide (10 < w.width) && decide (10 < w.height)

/-- Construction of a `WindowInfo` entry from the OS window fields, as in
`enter_pick_mode`. -/
def mkWindowInfo (w : WinProps) : WindowInfo :=
  ⟨Rect.from_min_size ⟨(w.x : ℚ), (w.y : ℚ)⟩ ⟨(w.width : ℚ), (w.height : ℚ)⟩,
    w.title, w.app_name⟩

/-- Bounding-box area of a candidate window, the sort key of
`enter_pick_mode` (`a.rect.width() * a.rect.height()`). -/
def winArea (w : WindowInfo) : ℚ := w.rect.width * w.rect.height

/-- The candidate list built by `enter_pick_mode` when entering
`PickingWindow`: keep the windows passing the filter, in enumeration
order, then stable-sort ascending by area (`sort_by` with
`partial_cmp` on the area product). -/
def enter_pick_windows (ws : List WinProps) : List WindowInfo :=
  ((ws.filter is_valid_window).map mkWindowInfo).mergeSort
    (fun a b => decide (winArea a ≤ winArea b))

/-- `SnapCrabApp::exit_pick_mode` (viewport commands omitted). -/
def exit_pick_mode (s : AppModel) : AppModel :=
  { s with state := AppState.Normal, fullscreen_bg_image := none, windows := [] }

/-- The `response.drag_stopped()` branch of `draw_picking_ui` in
`PickingArea` mode: crop the frozen background to the dragged rectangle
when it exceeds 5×5, then clear the drag and exit picking mode. -/
def area_drag_stopped (s : AppModel) (interact_pos : Option Pos2) : AppModel :=
  let s1 :=
    match s.drag_start, interact_pos with
    | some start, some endp =>
      let rect := Rect.from_two_pos start endp
      if 5 < rect.width ∧ 5 < rect.height then
        match s.fullscreen_bg_image with
        | some bg =>
          let x := rustAsU32 (Max.max rect.min.x 0)
          let y := rustAsU32 (Max.max rect.min.y 0)
          let w := Min.min (rustAsU32 rect.width) (bg.width - x)
          let h := Min.min (rustAsU32 rect.height) (bg.height - y)
          if 0 < w ∧ 0 < h then
            load_captured_image s (cropDims bg x y w h)
          else s
        | none => s
      else s
    | _, _ => s
  exit_pick_mode { s1 with drag_start := none }

theorem Rect.contains_iff (r : Rect) (p : Pos2) :
    r.contains p = true ↔
      (r.min.x ≤ p.x ∧ p.x ≤ r.max.x ∧ r.min.y ≤ p.y ∧ p.y ≤ r.max.y) := by
  simp [Rect.contains, and_assoc]

/-- Claim C9: when no image is loaded, both coordinate mappings are the
identity: `ui_to_image(p, R) = p` and `image_to_ui(p, R) = p` for every
point `p` and display rect `R`; a defined degenerate case, not an error. -/
theorem C9_no_image_identity (p : Pos2) (R : Rect) :
    ui_to_image none p R = p ∧ image_to_ui none p R = p :=
  ⟨rfl, rfl⟩

/-- Claim C6: translating any shape (Arrow, Rectangle or Text) by `d` and
then by `-d` restores every geometric field exactly. -/
theorem C6_translate_roundtrip (a : Ann) (d : Vec2) :
    (a.translate d).translate d.neg = a := by
  cases a <;>
    simp [Ann.translate, Pos2.addv, Vec2.neg, Rect.translate]

/-- Claim C4: the Rectangle hit test returns true exactly when the point
is inside the rect expanded outward by the threshold AND (outside the
rect shrunk inward by the threshold OR inside the original rect);
consequently every point strictly inside the interior is a hit, and every
point outside the expanded rect is not. -/
theorem C4_rect_hit_test (r : Rect) (c : Color32) (th : ℚ) (p : Pos2) (t : ℚ) :
    ((Ann.rect r c th).hit_test p t =
      ((r.expand t).contains p && (!((r.shrink t).contains p) || r.contains p)))
    ∧ (0 ≤ t → r.min.x < p.x → p.x < r.max.x → r.min.y < p.y → p.y < r.max.y →
        (Ann.rect r c th).hit_test p t = true)
    ∧ ((r.expand t).contains p = false → (Ann.rect r c th).hit_test p t = false) := by
  refine ⟨rfl, ?_, ?_⟩
  · intro ht h1 h2 h3 h4
    have hc : r.contains p = true :=
      (Rect.contains_iff r p).mpr ⟨le_of_lt h1, le_of_lt h2, le_of_lt h3, le_of_lt h4⟩
    have he : (r.expand t).contains p = true := by
      rw [Rect.contains_iff]
      simp only [Rect.expand]
      exact ⟨by linarith, by linarith, by linarith, by linarith⟩
    simp [Ann.hit_test, he, hc]
  · intro h
    simp [Ann.hit_test, h]

/-- Witness for C4 at a concrete input: the point (5,5) strictly inside
the rect with corners (0,0) and (10,10) is a hit at threshold 2. -/
theorem C4_rect_hit_test_witness :
    (Ann.rect ⟨⟨0, 0⟩, ⟨10, 10⟩⟩ 0 1).hit_test ⟨5, 5⟩ 2 = true :=
  (C4_rect_hit_test ⟨⟨0, 0⟩, ⟨10, 10⟩⟩ 0 1 ⟨5, 5⟩ 2).2.1
    (by norm_num) (by norm_num) (by norm_num) (by norm_num) (by norm_num)

/-- Claim C2: for a display rect `R` with positive extent and a loaded
image with positive dimensions, mapping a point inside `R` to image space
and back is the identity (exactly, over exact arithmetic). -/
theorem C2_roundtrip (o : ImgDims) (p : Pos2) (R : Rect)
    (hw : 0 < o.width) (hh : 0 < o.height)
    (hx : R.min.x < R.max.x) (hy : R.min.y < R.max.y)
    (_hp : R.contains p = true) :
    image_to_ui (some o) (ui_to_image (some o) p R) R = p := by
  have hw2 : ((o.width : ℚ)) ≠ 0 := Nat.cast_ne_zero.mpr hw.ne'
  have hh2 : ((o.height : ℚ)) ≠ 0 := Nat.cast_ne_zero.mpr hh.ne'
  have hsx : R.max.x - R.min.x ≠ 0 := sub_ne_zero.mpr (ne_of_gt hx)
  have hsy : R.max.y - R.min.y ≠ 0 := sub_ne_zero.mpr (ne_of_gt hy)
  apply Pos2.ext2 <;>
    simp only [ui_to_image, image_to_ui, Pos2.sub, Vec2.divv, Rect.size,
      Rect.width, Rect.height, Vec2.mulv, Pos2.addv] <;>
    field_simp <;> ring

/-- Witness for C2 at a concrete input: image 4×4, display rect from
(0,0) to (2,2), point (1,1). -/
theorem C2_roundtrip_witness :
    image_to_ui (some ⟨4, 4⟩)
      (ui_to_image (some ⟨4, 4⟩) ⟨1, 1⟩ ⟨⟨0, 0⟩, ⟨2, 2⟩⟩) ⟨⟨0, 0⟩, ⟨2, 2⟩⟩ = ⟨1, 1⟩ :=
  C2_roundtrip ⟨4, 4⟩ ⟨1, 1⟩ ⟨⟨0, 0⟩, ⟨2, 2⟩⟩ (by norm_num) (by norm_num)
    (by norm_num) (by norm_num) (by decide)

/-- The point on the segment from `start` to `endp` selected by the arrow
branch of `Annotation::hit_test`: the projection of `p` onto the line,
clamped to the segment. -/
def seg_closest (start endp p : Pos2) : Pos2 :=
  let line_vec := endp.sub start
  let t := clampQ (((p.sub start).dot line_vec) / line_vec.length_sq) 0 1
  start.addv (line_vec.smul t)

theorem distSq_addv_smul (p s : Pos2) (v : Vec2) (w : ℚ) :
    p.distSq (s.addv (v.smul w)) =
      p.distSq s - 2 * w * ((p.sub s).dot v) + w ^ 2 * v.length_sq := by
  simp only [Pos2.distSq, Pos2.sub, Pos2.addv, Vec2.smul, Vec2.length_sq, Vec2.dot]
  ring

theorem clamped_quadratic_min (d L u tc : ℚ) (hL : 0 < L) (hu0 : 0 ≤ u)
    (hu1 : u ≤ 1) (htc : tc = clampQ (d / L) 0 1) :
    -(2 * tc * d) + tc ^ 2 * L ≤ -(2 * u * d) + u ^ 2 * L := by
  have hL0 : L ≠ 0 := ne_of_gt hL
  rcases le_total (d / L) 0 with h0 | h0
  · have htc0 : tc = 0 := by
      rw [htc]; unfold clampQ
      rw [max_eq_right h0, min_eq_left (by norm_num : (0:ℚ) ≤ 1)]
    have hd : d ≤ 0 := by
      have h2 := mul_le_mul_of_nonneg_right h0 hL.le
      rwa [div_mul_cancel₀ _ hL0, zero_mul] at h2
    rw [htc0]
    nlinarith [mul_nonneg hu0 (neg_nonneg.mpr hd), mul_nonneg (mul_self_nonneg u) hL.le]
  · rcases le_total (d / L) 1 with h1 | h1
    · have htcq : tc = d / L := by
        rw [htc]; unfold clampQ
        rw [max_eq_left h0, min_eq_left h1]
      have hd : d = d / L * L := (div_mul_cancel₀ d hL0).symm
      rw [htcq]
      nlinarith [mul_nonneg hL.le (sq_nonneg (u - d / L)), hd]
    · have htc1 : tc = 1 := by
        rw [htc]; unfold clampQ
        rw [max_eq_left h0, min_eq_right h1]
      have hd : L ≤ d := by
        have h2 := mul_le_mul_of_nonneg_right h1 hL.le
        rwa [div_mul_cancel₀ _ hL0, one_mul] at h2
      rw [htc1]
      nlinarith [mul_nonneg (sub_nonneg.mpr hu1)
        (by nlinarith : (0:ℚ) ≤ 2 * d - (1 + u) * L)]

/-- Claim C5: the Arrow hit test is the comparison of the distance from
`p` to the clamped projection onto the segment against the threshold, the
clamped projection point really is a closest point of the segment, and
near-zero-length segments (`length_sq < 1`) fall back to the distance
from the start point; concretely, for the segment (0,0)–(10,0) with
threshold 2, (5,1) is a hit and (5,5) is not. -/
theorem C5_arrow_hit_test (start endp p : Pos2) (c : Color32) (th t : ℚ) :
    (1 ≤ (endp.sub start).length_sq →
      ((Ann.arrow start endp c th).hit_test p t =
          decide (distLt (p.distSq (seg_closest start endp p)) t))
      ∧ ∀ u : ℚ, 0 ≤ u → u ≤ 1 →
          p.distSq (seg_closest start endp p) ≤
            p.distSq (start.addv ((endp.sub start).smul u)))
    ∧ ((endp.sub start).length_sq < 1 →
        (Ann.arrow start endp c th).hit_test p t =
          decide (distLt (p.distSq start) t))
    ∧ (Ann.arrow ⟨0, 0⟩ ⟨10, 0⟩ 0 1).hit_test ⟨5, 1⟩ 2 = true
    ∧ (Ann.arrow ⟨0, 0⟩ ⟨10, 0⟩ 0 1).hit_test ⟨5, 5⟩ 2 = false := by
  refine ⟨fun h => ⟨?_, ?_⟩, fun h => ?_, ?_, ?_⟩
  · show (if (endp.sub start).length_sq < 1 then _ else _) = _
    rw [if_neg (not_lt.mpr h)]
    rfl
  · intro u hu0 hu1
    have hL : 0 < (endp.sub start).length_sq := lt_of_lt_of_le one_pos h
    have hmin := clamped_quadratic_min ((p.sub start).dot (endp.sub start))
      (endp.sub start).length_sq u
      (clampQ (((p.sub start).dot (endp.sub start)) / (endp.sub start).length_sq) 0 1)
      hL hu0 hu1 rfl
    show p.distSq (Pos2.addv start ((endp.sub start).smul
        (clampQ (((p.sub start).dot (endp.sub start)) / (endp.sub start).length_sq) 0 1))) ≤ _
    rw [distSq_addv_smul, distSq_addv_smul]
    linarith
  · show (if (endp.sub start).length_sq < 1 then _ else _) = _
    rw [if_pos h]
  · norm_num [Ann.hit_test, distLt, Pos2.distSq, Pos2.sub, Vec2.length_sq,
      Vec2.dot, Vec2.smul, Pos2.addv, clampQ]
  · norm_num [Ann.hit_test, distLt, Pos2.distSq, Pos2.sub, Vec2.length_sq,
      Vec2.dot, Vec2.smul, Pos2.addv, clampQ]

/-- Witness for C5 at a concrete input: the segment (0,0)–(10,0), point
(5,1), threshold 2; the non-degenerate branch applies and the projection
point (5,0) is closest at the midpoint parameter. -/
theorem C5_arrow_hit_test_witness :
    (Ann.arrow ⟨0, 0⟩ ⟨10, 0⟩ 0 1).hit_test ⟨5, 1⟩ 2 =
        decide (distLt (Pos2.distSq ⟨5, 1⟩ (seg_closest ⟨0, 0⟩ ⟨10, 0⟩ ⟨5, 1⟩)) 2)
      ∧ Pos2.distSq ⟨5, 1⟩ (seg_closest ⟨0, 0⟩ ⟨10, 0⟩ ⟨5, 1⟩) ≤
          Pos2.distSq ⟨5, 1⟩ (Pos2.addv ⟨0, 0⟩ ((Pos2.sub ⟨10, 0⟩ ⟨0, 0⟩).smul (1/2))) :=
  ⟨((C5_arrow_hit_test ⟨0, 0⟩ ⟨10, 0⟩ ⟨5, 1⟩ 0 1 2).1
      (by norm_num [Pos2.sub, Vec2.length_sq])).1,
   ((C5_arrow_hit_test ⟨0, 0⟩ ⟨10, 0⟩ ⟨5, 1⟩ 0 1 2).1
      (by norm_num [Pos2.sub, Vec2.length_sq])).2 (1/2)
     (by norm_num) (by norm_num)⟩

/-- Claim C1: on drag release on the canvas with an image loaded and a
new-shape drag in progress, with the drag start and end mapped to image
space: if their distance exceeds 1.0 (image pixels), exactly one Arrow
(resp. one Rectangle spanning the two points) is appended when the active
tool is Arrow (resp. Rect); if the distance is 1.0 or less, no shape is
committed; the Text tool commits nothing on drag release. -/
theorem C1_drag_release_commit (s : AppModel) (o : ImgDims) (rect : Rect)
    (start_ui end_ui pstart pend : Pos2)
    (_himg : s.original_image = some o)
    (hdrag : s.drag_start = some start_ui)
    (hstart : pstart = ui_to_image s.original_image start_ui rect)
    (hendp : pend = ui_to_image s.original_image end_ui rect) :
    (1 < pstart.distSq pend →
      (s.current_tool = Tool.arrow →
        (on_drag_stopped s (some end_ui) rect).anns =
          s.anns ++ [Ann.arrow pstart pend s.current_color s.stroke_thickness])
      ∧ (s.current_tool = Tool.rect →
        (on_drag_stopped s (some end_ui) rect).anns =
          s.anns ++ [Ann.rect (Rect.from_two_pos pstart pend)
            s.current_color s.stroke_thickness]))
    ∧ (pstart.distSq pend ≤ 1 →
        (on_drag_stopped s (some end_ui) rect).anns = s.anns)
    ∧ (s.current_tool = Tool.text →
        (on_drag_stopped s (some end_ui) rect).anns = s.anns) := by
  subst hstart hendp
  refine ⟨fun hgt => ⟨fun htool => ?_, fun htool => ?_⟩, fun hle => ?_, fun htool => ?_⟩
  · simp [on_drag_stopped, hdrag, htool, distGtOne, hgt]
  · simp [on_drag_stopped, hdrag, htool, distGtOne, hgt]
  · simp [on_drag_stopped, hdrag, distGtOne, not_lt.mpr hle]
  · by_cases hgt : distGtOne ((ui_to_image s.original_image start_ui rect).distSq
      (ui_to_image s.original_image end_ui rect))
    · simp [on_drag_stopped, hdrag, htool, hgt]
    · simp [on_drag_stopped, hdrag, hgt]

/-- Witness for C1 at the end-to-end example of the spec: empty canvas,
image 200×100 shown 1:1 in the rect (0,0)–(200,100), tool Rect, drag from
(10,10) to (100,60): exactly one Rectangle with min (10,10) and max
(100,60) is committed. -/
theorem C1_drag_release_commit_witness :
    (on_drag_stopped
      ⟨some ⟨200, 100⟩, [], Tool.rect, 0, 4, 24, some ⟨10, 10⟩, none, "", none,
        AppState.Normal, none, []⟩
      (some ⟨100, 60⟩) ⟨⟨0, 0⟩, ⟨200, 100⟩⟩).anns =
    [Ann.rect ⟨⟨10, 10⟩, ⟨100, 60⟩⟩ 0 4] := by
  have h := (C1_drag_release_commit
      ⟨some ⟨200, 100⟩, [], Tool.rect, 0, 4, 24, some ⟨10, 10⟩, none, "", none,
        AppState.Normal, none, []⟩
      ⟨200, 100⟩ ⟨⟨0, 0⟩, ⟨200, 100⟩⟩ ⟨10, 10⟩ ⟨100, 60⟩ ⟨10, 10⟩ ⟨100, 60⟩ rfl rfl
      (by norm_num [ui_to_image, Pos2.sub, Vec2.divv, Rect.size, Rect.width, Rect.height])
      (by norm_num [ui_to_image, Pos2.sub, Vec2.divv, Rect.size, Rect.width, Rect.height])).1
      (by norm_num [Pos2.distSq, Pos2.sub, Vec2.length_sq])
  rw [h.2 rfl]
  norm_num [Rect.from_two_pos]

/-- Claim C10: loading a new captured image clears the list of shapes but
leaves the selection index untouched, and a subsequently stale index is
harmless: a drag with the stale selection goes through the bounds-checked
lookup, finds nothing, and changes nothing. -/
theorem C10_stale_index_safe (s : AppModel) (img : ImgDims) :
    (load_captured_image s img).anns = []
    ∧ (load_captured_image s img).active_ann_index = s.active_ann_index
    ∧ ∀ (d : Vec2) (scale : ℚ),
        on_dragged (load_captured_image s img) d scale = load_captured_image s img := by
  refine ⟨rfl, rfl, fun d scale => ?_⟩
  unfold on_dragged
  cases h : (load_captured_image s img).active_ann_index with
  | none => rfl
  | some idx =>
    simp only [load_captured_image] at h ⊢
    simp [h]

theorem select_hit_concat (l : List Ann) (a : Ann) (p : Pos2) (t : ℚ) :
    select_hit (l ++ [a]) p t =
      if a.hit_test p t then some l.length else select_hit l p t := by
  unfold select_hit
  rw [List.enum_append]
  have h1 : List.enumFrom l.length [a] = [(l.length, a)] := rfl
  rw [h1, List.reverse_append]
  simp only [List.reverse_cons, List.reverse_nil, List.nil_append, List.singleton_append]
  by_cases h : a.hit_test p t
  · simp [List.find?_cons, h]
  · simp [List.find?_cons, h]

theorem select_hit_spec (anns : List Ann) (p : Pos2) (t : ℚ) :
    ∀ k, select_hit anns p t = some k →
      ∃ a, anns[k]? = some a ∧ a.hit_test p t = true ∧
        ∀ m b, anns[m]? = some b → k < m → b.hit_test p t = false := by
  induction anns using List.reverseRecOn with
  | nil => intro k h; simp [select_hit] at h
  | append_singleton l a ih =>
    intro k h
    rw [select_hit_concat] at h
    by_cases ha : a.hit_test p t
    · rw [if_pos ha] at h
      have hk : k = l.length := by injection h with h2; exact h2.symm
      subst hk
      refine ⟨a, List.getElem?_concat_length l a, ha, ?_⟩
      intro m b hmb hkm
      have hlen : (l ++ [a]).length ≤ m := by
        simp only [List.length_append, List.length_cons, List.length_nil]
        omega
      rw [List.getElem?_eq_none hlen] at hmb
      cases hmb
    · rw [if_neg ha] at h
      obtain ⟨b, hb1, hb2, hb3⟩ := ih k h
      have hk : k < l.length := by
        by_contra hc
        rw [List.getElem?_eq_none (le_of_not_lt hc)] at hb1
        cases hb1
      refine ⟨b, ?_, hb2, ?_⟩
      · rw [List.getElem?_append_left hk]
        exact hb1
      · intro m c hmc hkm
        rcases Nat.lt_or_ge m l.length with hm | hm
        · exact hb3 m c (by rwa [List.getElem?_append_left hm] at hmc) hkm
        · rcases Nat.eq_or_lt_of_le hm with hm2 | hm2
          · have hma : (l ++ [a])[m]? = some a := by
              rw [← hm2]; exact List.getElem?_concat_length l a
            rw [hma] at hmc
            injection hmc with hc
            subst hc
            simp only [Bool.not_eq_true] at ha
            exact ha
          · have hlen : (l ++ [a]).length ≤ m := by
              simp only [List.length_append, List.length_cons, List.length_nil]
              omega
            rw [List.getElem?_eq_none hlen] at hmc
            cases hmc

/-- Claim C3: on drag start with a non-Crop tool, the selection is the
result of scanning the shape list from last-created to first-created and
taking the first hit: any selected index is a hit and every later
(more recently created) index is not; for two overlapping shapes both
hit by the point, the later one (index 1) is selected; and the
drag-start handler stores exactly this scan result. -/
theorem C3_topmost_selection (p : Pos2) (t : ℚ) :
    (∀ (anns : List Ann) (k : ℕ), select_hit anns p t = some k →
      ∃ a, anns[k]? = some a ∧ a.hit_test p t = true ∧
        ∀ m b, anns[m]? = some b → k < m → b.hit_test p t = false)
    ∧ (∀ a b : Ann, a.hit_test p t = true → b.hit_test p t = true →
        select_hit [a, b] p t = some 1)
    ∧ (∀ (s : AppModel) (pos_ui : Pos2) (rect : Rect) (scale : ℚ),
        s.current_tool ≠ Tool.crop →
          (on_drag_started s (some pos_ui) rect scale).active_ann_index =
            select_hit s.anns (ui_to_image s.original_image pos_ui rect) (10 / scale)) := by
  refine ⟨fun anns => select_hit_spec anns p t, fun a b _ hb => ?_, ?_⟩
  · have h2 : [a, b] = [a] ++ [b] := rfl
    rw [h2, select_hit_concat]
    simp [hb]
  · intro s pos_ui rect scale htool
    unfold on_drag_started
    simp only [htool, ne_eq, not_false_iff, if_true]
    by_cases hnone :
        select_hit s.anns (ui_to_image s.original_image pos_ui rect) (10 / scale) = none
    · simp only [hnone]
      by_cases htext : s.current_tool = Tool.text <;> simp [htext, hnone]
    · simp [hnone]

/-- Witness for C3 at a concrete input: two identical overlapping border
rectangles, point (0,0) on their border, threshold 1: the scan selects
index 1 (the most recently created). -/
theorem C3_topmost_selection_witness :
    select_hit [Ann.rect ⟨⟨0, 0⟩, ⟨10, 10⟩⟩ 0 1, Ann.rect ⟨⟨0, 0⟩, ⟨10, 10⟩⟩ 1 1]
      ⟨0, 0⟩ 1 = some 1 :=
  (C3_topmost_selection ⟨0, 0⟩ 1).2.1
    (Ann.rect ⟨⟨0, 0⟩, ⟨10, 10⟩⟩ 0 1) (Ann.rect ⟨⟨0, 0⟩, ⟨10, 10⟩⟩ 1 1)
    (by norm_num [Ann.hit_test, Rect.contains, Rect.expand, Rect.shrink])
    (by norm_num [Ann.hit_test, Rect.contains, Rect.expand, Rect.shrink])

/-- Claim C7: every entry of the window-picker candidate list comes from a
window passing the exclusion filter (not minimized, nonempty title, not
the application itself, no system title, strictly larger than 10×10), so
a window titled "" or sized 5×5 never contributes an entry; and the list
is ordered ascending by bounding-box area. -/
theorem C7_window_filter_sorted (ws : List WinProps) :
    (∀ v ∈ enter_pick_windows ws,
      ∃ w, w ∈ ws ∧ is_valid_window w = true ∧ v = mkWindowInfo w ∧
        w.minimized = false ∧ w.title ≠ "" ∧ w.title ≠ "SnapCrab" ∧
        w.app_name ≠ "SnapCrab" ∧ w.title ≠ "Program Manager" ∧
        startsWithMs w.title = false ∧ 10 < w.width ∧ 10 < w.height ∧
        v.title ≠ "" ∧ ¬(v.rect.width = 5 ∧ v.rect.height = 5))
    ∧ (enter_pick_windows ws).Pairwise (fun a b => winArea a ≤ winArea b) := by
  constructor
  · intro v hv
    unfold enter_pick_windows at hv
    rw [List.mem_mergeSort] at hv
    obtain ⟨w, hwf, rfl⟩ := List.mem_map.mp hv
    obtain ⟨hw, hvalid⟩ := List.mem_filter.mp hwf
    refine ⟨w, hw, hvalid, rfl, ?_⟩
    simp only [is_valid_window, Bool.and_eq_true, Bool.not_eq_true',
      beq_eq_false_iff_ne, ne_eq, decide_eq_true_eq] at hvalid
    obtain ⟨⟨⟨⟨⟨⟨⟨hmin, ht1⟩, ht2⟩, ha1⟩, ht3⟩, hpre⟩, hwd⟩, hhd⟩ := hvalid
    refine ⟨hmin, ht1, ht2, ha1, ht3, hpre, hwd, hhd, ht1, ?_⟩
    rintro ⟨h5, -⟩
    have hq : ((w.width : ℚ)) = 5 := by
      simp only [mkWindowInfo, Rect.from_min_size, Rect.width, Pos2.addv] at h5
      linarith
    have h5n : w.width = 5 := by exact_mod_cast hq
    omega
  · have hs : (enter_pick_windows ws).Pairwise
        (fun a b => (decide (winArea a ≤ winArea b)) = true) := by
      unfold enter_pick_windows
      exact List.sorted_mergeSort
        (fun a b c hab hbc => by
          simp only [decide_eq_true_eq] at *
          exact le_trans hab hbc)
        (fun a b => by
          simp only [Bool.or_eq_true, decide_eq_true_eq]
          exact le_total _ _)
        ((ws.filter is_valid_window).map mkWindowInfo)
    exact hs.imp (fun h => by simpa using h)

/-- Witness for C7 at a concrete input: the single valid window survives
the filter and its entry carries a nonempty title. -/
theorem C7_window_filter_sorted_witness :
    (mkWindowInfo ⟨"Terminal", "term", false, 0, 0, 100, 50⟩).title ≠ "" := by
  have hmem : mkWindowInfo ⟨"Terminal", "term", false, 0, 0, 100, 50⟩ ∈
      enter_pick_windows [⟨"Terminal", "term", false, 0, 0, 100, 50⟩] := by
    unfold enter_pick_windows
    rw [List.mem_mergeSort]
    have hval : is_valid_window ⟨"Terminal", "term", false, 0, 0, 100, 50⟩ = true := by
      decide
    simp [List.filter_cons, hval]
  obtain ⟨w, _, _, hv, _, hne, _⟩ :=
    (C7_window_filter_sorted [⟨"Terminal", "term", false, 0, 0, 100, 50⟩]).1
      (mkWindowInfo ⟨"Terminal", "term", false, 0, 0, 100, 50⟩) hmem
  rw [hv]
  exact hne

/-- Claim C8: on drag release in area-picking mode with a frozen
background of positive size and a drag overlapping it: if the dragged
rectangle exceeds 5×5 pixels, the background is cropped to it (clamped to
the background bounds, the crop nonempty) and loaded as the active image
(clearing the shapes); if the rectangle is 5×5 or smaller, the previous
image and shapes are retained; in both cases the application returns to
the Normal state. -/
theorem C8_area_pick_release (s : AppModel) (start endp : Pos2) (bg : ImgDims)
    (r : Rect) (x y w h : ℕ)
    (hdrag : s.drag_start = some start)
    (hbg : s.fullscreen_bg_image = some bg)
    (hbgw : 0 < bg.width) (hbgh : 0 < bg.height)
    (hr : r = Rect.from_two_pos start endp)
    (hx : x = rustAsU32 (Max.max r.min.x 0))
    (hy : y = rustAsU32 (Max.max r.min.y 0))
    (hw : w = Min.min (rustAsU32 r.width) (bg.width - x))
    (hh : h = Min.min (rustAsU32 r.height) (bg.height - y)) :
    (5 < r.width → 5 < r.height →
      Min.min start.x endp.x < (bg.width : ℚ) →
      Min.min start.y endp.y < (bg.height : ℚ) →
      0 < w ∧ 0 < h ∧
      (area_drag_stopped s (some endp)).original_image = some (cropDims bg x y w h) ∧
      (area_drag_stopped s (some endp)).anns = [])
    ∧ (r.width ≤ 5 ∧ r.height ≤ 5 →
        (area_drag_stopped s (some endp)).original_image = s.original_image ∧
        (area_drag_stopped s (some endp)).anns = s.anns)
    ∧ (area_drag_stopped s (some endp)).state = AppState.Normal := by
  subst hr hx hy hw hh
  refine ⟨?_, ?_, rfl⟩
  · intro h5w h5h hbx hby
    have hminx : (Rect.from_two_pos start endp).min.x = Min.min start.x endp.x := rfl
    have hminy : (Rect.from_two_pos start endp).min.y = Min.min start.y endp.y := rfl
    have hxlt : rustAsU32 (Max.max (Rect.from_two_pos start endp).min.x 0) < bg.width := by
      unfold rustAsU32
      split
      · exact hbgw
      · rename_i hq
        push_neg at hq
        have hmaxlt : Max.max (Rect.from_two_pos start endp).min.x 0 < (bg.width : ℚ) := by
          rw [hminx]
          exact max_lt hbx (by exact_mod_cast hbgw)
        have hfl : ⌊Max.max (Rect.from_two_pos start endp).min.x 0⌋ < (bg.width : ℤ) := by
          rw [Int.floor_lt]
          exact_mod_cast hmaxlt
        have hfl0 : 0 ≤ ⌊Max.max (Rect.from_two_pos start endp).min.x 0⌋ :=
          Int.floor_nonneg.mpr (le_of_lt hq)
        omega
    have hylt : rustAsU32 (Max.max (Rect.from_two_pos start endp).min.y 0) < bg.height := by
      unfold rustAsU32
      split
      · exact hbgh
      · rename_i hq
        push_neg at hq
        have hmaxlt : Max.max (Rect.from_two_pos start endp).min.y 0 < (bg.height : ℚ) := by
          rw [hminy]
          exact max_lt hby (by exact_mod_cast hbgh)
        have hfl : ⌊Max.max (Rect.from_two_pos start endp).min.y 0⌋ < (bg.height : ℤ) := by
          rw [Int.floor_lt]
          exact_mod_cast hmaxlt
        have hfl0 : 0 ≤ ⌊Max.max (Rect.from_two_pos start endp).min.y 0⌋ :=
          Int.floor_nonneg.mpr (le_of_lt hq)
        omega
    have hwidthpos : 0 < rustAsU32 (Rect.from_two_pos start endp).width := by
      unfold rustAsU32
      split
      · rename_i hq
        exact absurd hq (not_le.mpr (by linarith))
      · rename_i hq
        have h5f : (5:ℤ) ≤ ⌊(Rect.from_two_pos start endp).width⌋ :=
          Int.le_floor.mpr (by exact_mod_cast h5w.le)
        omega
    have hheightpos : 0 < rustAsU32 (Rect.from_two_pos start endp).height := by
      unfold rustAsU32
      split
      · rename_i hq
        exact absurd hq (not_le.mpr (by linarith))
      · rename_i hq
        have h5f : (5:ℤ) ≤ ⌊(Rect.from_two_pos start endp).height⌋ :=
          Int.le_floor.mpr (by exact_mod_cast h5h.le)
        omega
    have hwpos : 0 < Min.min (rustAsU32 (Rect.from_two_pos start endp).width)
        (bg.width - rustAsU32 (Max.max (Rect.from_two_pos start endp).min.x 0)) :=
      lt_min hwidthpos (by omega)
    have hhpos : 0 < Min.min (rustAsU32 (Rect.from_two_pos start endp).height)
        (bg.height - rustAsU32 (Max.max (Rect.from_two_pos start endp).min.y 0)) :=
      lt_min hheightpos (by omega)
    refine ⟨hwpos, hhpos, ?_, ?_⟩ <;>
    · unfold area_drag_stopped
      simp only [hdrag, hbg]
      rw [if_pos ⟨h5w, h5h⟩, if_pos ⟨hwpos, hhpos⟩]
      simp [load_captured_image, exit_pick_mode]
  · rintro ⟨hw5, hh5⟩
    have hcond : ¬(5 < (Rect.from_two_pos start endp).width ∧
        5 < (Rect.from_two_pos start endp).height) := by
      rintro ⟨h1, -⟩
      linarith
    constructor <;>
    · unfold area_drag_stopped
      simp only [hdrag, hbg]
      rw [if_neg hcond]
      simp [exit_pick_mode]

/-- Witness for C8 at a concrete input: background 1920×1080, drag from
(10,10) to (110,120): the 100×110 crop is loaded and the state returns to
Normal. -/
theorem C8_area_pick_release_witness :
    (area_drag_stopped
      ⟨none, [], Tool.arrow, 0, 4, 24, some ⟨10, 10⟩, none, "", none,
        AppState.PickingArea, some ⟨1920, 1080⟩, []⟩
      (some ⟨110, 120⟩)).original_image = some ⟨100, 110⟩ ∧
    (area_drag_stopped
      ⟨none, [], Tool.arrow, 0, 4, 24, some ⟨10, 10⟩, none, "", none,
        AppState.PickingArea, some ⟨1920, 1080⟩, []⟩
      (some ⟨110, 120⟩)).state = AppState.Normal := by
  have h := C8_area_pick_release
    ⟨none, [], Tool.arrow, 0, 4, 24, some ⟨10, 10⟩, none, "", none,
      AppState.PickingArea, some ⟨1920, 1080⟩, []⟩
    ⟨10, 10⟩ ⟨110, 120⟩ ⟨1920, 1080⟩
    (Rect.from_two_pos ⟨10, 10⟩ ⟨110, 120⟩)
    (rustAsU32 (Max.max (Rect.from_two_pos ⟨10, 10⟩ ⟨110, 120⟩).min.x 0))
    (rustAsU32 (Max.max (Rect.from_two_pos ⟨10, 10⟩ ⟨110, 120⟩).min.y 0))
    (Min.min (rustAsU32 (Rect.from_two_pos ⟨10, 10⟩ ⟨110, 120⟩).width)
      (1920 - rustAsU32 (Max.max (Rect.from_two_pos ⟨10, 10⟩ ⟨110, 120⟩).min.x 0)))
    (Min.min (rustAsU32 (Rect.from_two_pos ⟨10, 10⟩ ⟨110, 120⟩).height)
      (1080 - rustAsU32 (Max.max (Rect.from_two_pos ⟨10, 10⟩ ⟨110, 120⟩).min.y 0)))
    rfl rfl (by norm_num) (by norm_num) rfl rfl rfl rfl rfl
  have h1 := h.1
    (by norm_num [Rect.from_two_pos, Rect.width])
    (by norm_num [Rect.from_two_pos, Rect.height])
    (by norm_num) (by norm_num)
  refine ⟨?_, h.2.2⟩
  rw [h1.2.2.1]
  norm_num [cropDims, rustAsU32, Rect.from_two_pos, Rect.width, Rect.height]
  exact ⟨rfl, rfl⟩
